import Mathlib

/-!
Verification of the craigslist SMM jobs parser.

Shallow embedding of the two source files that the claims reference:
* `src/craigslist_jobs/spiders/chicago_jobs.py` — the Scrapy spider
  (`parse`, `_extract_job_basic_info`, `parse_job_detail`, `_is_job_recent`,
  the short-description derivation and the filter pipeline);
* `src/azalia_search.py` — the multi-section aggregator in `main`
  (url dedup, sort by posted date with a bare `except: pass` fallback).

Python strings are modelled as Lean `String` (a sequence of code points,
which is exactly CPython's model); `None`-able strings are `Option String`,
except where the source routes a value through `or`-chains, which treat
`None` and `""` identically — there `""` models `None`.  Timestamps are
seconds since the Unix epoch as `Int` (the `datetime` order embeds
monotonically).  HTML selector lookups are modelled by the value they
return: the claims quantify over the extracted strings, not the markup.
-/

set_option maxRecDepth 16384

namespace CraigslistJobs

/-- Python `a or b` for strings, where a missing value (`None`) is
modelled as `""`: both are falsy, so `or` treats them identically. -/
def pyOr (a b : String) : String := if a = "" then b else a

/-- Python `len(s)`: the number of code points. -/
def pyLen (s : String) : Nat := s.data.length

/-- Python `s[:n]`: the first `n` code points. -/
def pySlice (n : Nat) (s : String) : String := ⟨s.data.take n⟩

/-- Python `s.lower()` (ASCII range; the inputs the spider lowers are
selector text and config tokens). -/
def pyLower (s : String) : String := ⟨s.data.map Char.toLower⟩

/-- Python `needle in hay` for strings: contiguous-substring containment. -/
def PyIn (needle hay : String) : Prop := needle.data <:+: hay.data

instance (n h : String) : Decidable (PyIn n h) :=
  inferInstanceAs (Decidable (n.data <:+: h.data))

/-- Python `s.strip(chars)`: remove the characters of `cs` from both ends. -/
def pyStripChars (cs : List Char) (s : String) : String :=
  ⟨((s.data.dropWhile (fun c => cs.contains c)).reverse.dropWhile
      (fun c => cs.contains c)).reverse⟩

/-- Python `s.strip()`: remove ASCII whitespace from both ends. -/
def pyStripWs (s : String) : String :=
  pyStripChars [' ', '\t', '\n', '\r', '\x0b', '\x0c'] s

/-- Python `s.rsplit(" ", 1)[0]`: everything before the last space of `s`,
or `s` itself when `s` contains no space. -/
def pyRsplitSpace1 (s : String) : String :=
  match s.data.reverse.dropWhile (fun c => c ≠ ' ') with
  | [] => s
  | _ :: rest => ⟨rest.reverse⟩

/-- Python `s.startswith(p)`. -/
def pyStartsWith (p s : String) : Bool := p.data.isPrefixOf s.data

/-- Lexicographic `≤` on code-point sequences: CPython's `str` comparison. -/
def charListLe : List Char → List Char → Bool
  | [], _ => true
  | _ :: _, [] => false
  | a :: as, b :: bs =>
    a.toNat < b.toNat || (a.toNat = b.toNat && charListLe as bs)

/-- CPython `x <= y` on strings. -/
def pyStrLe (x y : String) : Bool := charListLe x.data y.data

/-! ### Date parsing: `datetime.strptime(raw[:19], "%Y-%m-%dT%H:%M:%S")` -/

/-- Numeric value of a decimal digit character. -/
def digitVal (c : Char) : Nat := c.toNat - 48

/-- Gregorian leap-year rule (as used by `datetime`). -/
def isLeapYear (y : Nat) : Bool :=
  (y % 4 == 0 && y % 100 != 0) || y % 400 == 0

/-- Number of days in month `m` of year `y` (validated by `datetime`'s
constructor: a day out of this range raises `ValueError`). -/
def daysInMonth (y m : Nat) : Nat :=
  if m = 2 then (if isLeapYear y then 29 else 28)
  else if m = 4 ∨ m = 6 ∨ m = 9 ∨ m = 11 then 30
  else 31

/-- Days from 1970-01-01 to year `y`, month `m`, day `d` (proleptic
Gregorian; Hinnant's `days_from_civil`, specialised to `y ≥ 1`). -/
def daysFromCivil (y m d : Nat) : Int :=
  let yAdj := if m ≤ 2 then y - 1 else y
  let era := yAdj / 400
  let yoe := yAdj - era * 400
  let mp := (m + 9) % 12
  let doy := (153 * mp + 2) / 5 + d - 1
  let doe := yoe * 365 + yoe / 4 - yoe / 100 + doy
  (era * 146097 + doe : Nat) - 719468

/-- One numeric field of CPython's strptime regex for this format: try
the two-digit alternative first (both characters digits and the value in
the alternation's two-digit set), then the one-digit alternative.  The
fixed non-digit separator after each field makes this deterministic
choice equivalent to the regex's backtracking: if two digits are
consumed, the one-digit reading would place a digit where the separator
must be, so no viable match is lost. -/
def matchField (ok2 ok1 : Nat → Bool) :
    List Char → Option (Nat × List Char)
  | c1 :: c2 :: rest =>
    if c1.isDigit && c2.isDigit && ok2 (10 * digitVal c1 + digitVal c2) then
      some (10 * digitVal c1 + digitVal c2, rest)
    else if c1.isDigit && ok1 (digitVal c1) then
      some (digitVal c1, c2 :: rest)
    else none
  | [c1] =>
    if c1.isDigit && ok1 (digitVal c1) then some (digitVal c1, []) else none
  | [] => none

/-- A literal character of the format string. -/
def matchLit (c : Char) : List Char → Option (List Char)
  | x :: rest => if x = c then some rest else none
  | [] => none

/-- Python `datetime.strptime(s, "%Y-%m-%dT%H:%M:%S")` as a total
function: `none` models the `ValueError` the spider catches.  Modelled
on CPython's `_strptime` regexes for this format: `%Y` is exactly four
digits; month, day, hour, minute and second accept zero-padded
two-digit or non-padded one-digit values per the alternations
`1[0-2]|0[1-9]|[1-9]`, `3[01]|[12]\d|0[1-9]|[1-9]`, `2[0-3]|[0-1]\d|\d`,
`[0-5]\d|\d` and `6[0-1]|[0-5]\d|\d`; the regex must consume the whole
string ("unconverted data remains" otherwise); and the `datetime`
constructor then validates year ≥ 1, the day against the month's length
and second ≤ 59 (the regex-level leap seconds 60/61 are rejected
there).  Digits are ASCII here.  Both the regex-level and the
constructor-level failures are the `ValueError` the caller catches, so
both are `none`.  The result is the timestamp in epoch seconds. -/
def strptimeTs (s : String) : Option Int :=
  match s.data with
  | y1 :: y2 :: y3 :: y4 :: rest0 =>
    if y1.isDigit && y2.isDigit && y3.isDigit && y4.isDigit then do
      let y := 1000 * digitVal y1 + 100 * digitVal y2 + 10 * digitVal y3 +
        digitVal y4
      let rest1 ← matchLit '-' rest0
      let (mo, rest2) ← matchField (fun v => decide (1 ≤ v ∧ v ≤ 12))
        (fun v => decide (1 ≤ v)) rest1
      let rest3 ← matchLit '-' rest2
      let (dd, rest4) ← matchField (fun v => decide (1 ≤ v ∧ v ≤ 31))
        (fun v => decide (1 ≤ v)) rest3
      let rest5 ← matchLit 'T' rest4
      let (hh, rest6) ← matchField (fun v => decide (v ≤ 23))
        (fun _ => true) rest5
      let rest7 ← matchLit ':' rest6
      let (mi, rest8) ← matchField (fun v => decide (v ≤ 59))
        (fun _ => true) rest7
      let rest9 ← matchLit ':' rest8
      let (ss, rest10) ← matchField (fun v => decide (v ≤ 61))
        (fun _ => true) rest9
      if rest10 = [] ∧ 1 ≤ y ∧ dd ≤ daysInMonth y mo ∧ ss ≤ 59 then
        some (daysFromCivil y mo dd * 86400 + (hh * 3600 + mi * 60 + ss : Nat))
      else none
    else none
  | _ => none

/-- A parsed `datetime` value: naive timestamp plus optional UTC offset
(`tzinfo`).  `strptime` sets `tzinfo` only for a `%z`/`%Z` directive. -/
structure PyDatetime where
  ts : Int
  tz : Option Int
deriving DecidableEq

/-- The spider call `datetime.strptime(s, "%Y-%m-%dT%H:%M:%S")`: the format string
contains no `%z`/`%Z` directive, so `tzinfo` is always `None`. -/
def strptime19 (s : String) : Option PyDatetime :=
  (strptimeTs s).map (fun t => { ts := t, tz := none })

/-! ### Data model -/

/-- The spider's configuration after `__init__` normalisation:
`keywords` lower-cased and non-empty-filtered; `locations` likewise, with
`[]` modelling `None` (Python truthiness treats them identically);
`days` and `max_jobs` integers. -/
structure FilterConfig where
  keywords : List String
  days : Int
  locations : List String
  max_jobs : Int
deriving DecidableEq

/-- The `job_data` dict built by `_extract_job_basic_info` and carried in
`response.meta` (its `posted_date` entry is `None` and never read). -/
structure JobMeta where
  title : String
  url : String
  location : String
deriving DecidableEq

/-- What the detail-page response yields to `parse_job_detail`, modelled
by the values its selector lookups return: `titleFallback` is the
`or`-chain of the `span#titletextonly` and `h1.postingtitle` lookups
(`""` = both missing), `postedDateRaw` the result of
`_extract_posted_date`, `description` the result of
`_extract_description` (already defaulted to `""`). -/
structure DetailResponse where
  status : Nat
  blockedText : Bool
  url : String
  titleFallback : String
  postedDateRaw : Option String
  description : String
deriving DecidableEq

/-- One row of a results page together with the detail page its link
leads to.  `title`, `url`, `locationRaw` are the `or`-chained selector
results of `_extract_job_basic_info` (`""` = missing). -/
structure RawRow where
  title : String
  url : String
  locationRaw : String
  detail : DetailResponse
deriving DecidableEq

/-- The record `parse_job_detail` yields for an accepted job. -/
structure Listing where
  title : String
  job_url : String
  posted_date : Option String
  location : String
  short_description : String
deriving DecidableEq

/-- One list-page response in a section's pagination chain:
`status`/`blockedText` as for detail pages, `rows` the result of
`_extract_job_rows`, `next` whether `_find_next_page` found a link. -/
structure Page where
  status : Nat
  blockedText : Bool
  rows : List RawRow
  next : Bool
deriving DecidableEq

/-! ### The spider -/

/-- The method `_is_job_recent(posted_date_raw)`: `True` for a missing or empty
date; otherwise parse the first 19 characters with the zone-less format,
`True` again if parsing raises, else compare against
`now - timedelta(days)` — `now` taken in the parsed value's timezone if
it has one (`tzNow`), else naive local `now`. -/
def is_job_recent (days : Int) (now : Int) (tzNow : Int → Int)
    (raw : Option String) : Bool :=
  match raw with
  | none => true
  | some s =>
    if s = "" then true
    else
      match strptime19 (pySlice 19 s) with
      | none => true
      | some dt =>
        let now_dt := match dt.tz with
          | some z => tzNow z
          | none => now
        let cutoff := now_dt - days * 86400
        decide (dt.ts ≥ cutoff)

/-- The short-description derivation in `parse_job_detail`:
`description[:200].rsplit(" ", 1)[0] if len(description) > 200 else
description`. -/
def short_description (description : String) : String :=
  if pyLen description > 200 then pyRsplitSpace1 (pySlice 200 description)
  else description

/-- The callback `parse_job_detail(response)`: reject blocked or non-200 detail pages,
assemble title/url/location/date/description, derive the short
description, override the location to `"remote"` when the body implies
it, then run the keyword, recency and location filter stages in order;
`none` models a filtered-out (never yielded) job. -/
def parse_job_detail (cfg : FilterConfig) (now : Int) (tzNow : Int → Int)
    (meta : JobMeta) (resp : DetailResponse) : Option Listing :=
  if resp.blockedText = true ∨ resp.status ≠ 200 then none
  else
    let title := pyOr meta.title resp.titleFallback
    let job_url := pyOr meta.url resp.url
    let description := resp.description
    let shortDesc := short_description description
    let location :=
      if meta.location ≠ "remote" ∧ meta.location ≠ "N/A" ∧
          PyIn "remote" (pyLower description) then "remote"
      else meta.location
    let text_to_search := pyLower (title ++ " " ++ description)
    if cfg.keywords ≠ [] ∧ ¬ ∃ kw ∈ cfg.keywords, PyIn kw text_to_search then
      none
    else if is_job_recent cfg.days now tzNow resp.postedDateRaw = false then
      none
    else if cfg.locations ≠ [] ∧
        ¬ ∃ allowed ∈ cfg.locations, PyIn allowed (pyLower (pyOr location ""))
      then none
    else
      some { title := title, job_url := job_url,
             posted_date := resp.postedDateRaw, location := location,
             short_description := shortDesc }

/-- The method `_extract_job_basic_info(job)`: clean the raw location (strip spaces
and parentheses; empty or whitespace-only becomes `"N/A"`; anything
containing `"remote"` case-insensitively becomes `"remote"`), and make a
relative url absolute against the site origin. -/
def extract_job_basic_info (r : RawRow) : JobMeta :=
  let location_clean :=
    if r.locationRaw = "" then "" else pyStripChars [' ', '(', ')'] r.locationRaw
  let location :=
    if location_clean = "" ∨ pyStripWs location_clean = "" then "N/A"
    else if PyIn "remote" (pyLower location_clean) then "remote"
    else location_clean
  let url :=
    if r.url ≠ "" ∧ pyStartsWith "/" r.url = true then
      "https://chicago.craigslist.org" ++ r.url
    else r.url
  { title := r.title, url := url, location := location }

/-- One enumerated row's contribution: `parse` issues a detail request
only when the extracted url is non-empty (`if job_data and
job_data["url"]`), and the detail callback is `parse_job_detail`. -/
def processRow (cfg : FilterConfig) (now : Int) (tzNow : Int → Int)
    (r : RawRow) : Option Listing :=
  let m := extract_job_basic_info r
  if m.url ≠ "" then parse_job_detail cfg now tzNow m r.detail else none

/-- The listings one list page contributes in `parse`: the rows are
sliced to `max_jobs` when `max_jobs > 0` (`job_rows[:max_jobs]`), then
each surviving row goes through the detail fetch and classifier. -/
def pageItems (cfg : FilterConfig) (now : Int) (tzNow : Int → Int)
    (p : Page) : List Listing :=
  let row_iter := if cfg.max_jobs > 0 then p.rows.take cfg.max_jobs.toNat
    else p.rows
  row_iter.filterMap (processRow cfg now tzNow)

/-- The section crawl of `parse` over its pagination chain, in discovery
order: a blocked or non-200 list page ends the crawl (`return` before
anything is yielded for it), an empty row set likewise, and the next
page is processed only when `_find_next_page` found a link. -/
def crawl (cfg : FilterConfig) (now : Int) (tzNow : Int → Int) :
    List Page → List Listing
  | [] => []
  | p :: rest =>
    if p.blockedText = true ∨ p.status ≠ 200 then []
    else if p.rows = [] then []
    else
      pageItems cfg now tzNow p ++
        (if p.next then crawl cfg now tzNow rest else [])

/-! ### The aggregator (`azalia_search.py`, `main`) -/

/-- The dedup loop of `main`: walk the concatenated jobs keeping a `seen`
set of urls; a job whose url was already seen is dropped, otherwise it is
kept and its url recorded. -/
def dedupAux (seen : List String) : List Listing → List Listing
  | [] => []
  | j :: rest =>
    if j.job_url ∈ seen then dedupAux seen rest
    else j :: dedupAux (j.job_url :: seen) rest

/-- The list `unique_jobs`: dedup by `job_url`, first occurrence wins. -/
def dedup_jobs (l : List Listing) : List Listing := dedupAux [] l

/-- The sort key `x.get("posted_date", "")` for a record whose
`posted_date` is a string (a `None` value makes CPython's comparison
raise, which the caller's `except` turns into the no-sort fallback). -/
def sortKey (j : Listing) : String := j.posted_date.getD ""

/-- The `reverse=True` string comparison on sort keys: `a` may precede `b`
iff `a`'s key is ≥ `b`'s. -/
def jobLe (a b : Listing) : Bool := pyStrLe (sortKey b) (sortKey a)

/-- Strict `<` on code-point sequences: CPython's `str` comparison. -/
def charListLt : List Char → List Char → Bool
  | [], [] => false
  | [], _ :: _ => true
  | _ :: _, [] => false
  | a :: as, b :: bs =>
    a.toNat < b.toNat || (a.toNat = b.toNat && charListLt as bs)

/-- The raising key comparison `key(a) < key(b)`, restricted to entries
whose keys are strings: the sort machinery below applies it only to
such entries, because a `None` key raises `TypeError` before any
further comparison can involve it. -/
def keyLt (a b : Listing) : Bool :=
  charListLt (sortKey a).data (sortKey b).data

/-- binarysort's stable ascending insertion: its binary search places
the pivot before the leftmost resident the pivot is less than, that is,
after every resident not greater than it. -/
def insortAsc (x : Listing) : List Listing → List Listing
  | [] => [x]
  | p :: rest => if keyLt x p then x :: p :: rest else p :: insortAsc x rest

/-- binarysort's insertion loop over the elements after the initial
run: a pivot with a `None` key raises at its first comparison, freezing
the array as sorted-prefix ++ pivot ++ untouched tail (the sorted
prefix, an initial run, is never empty here, so a comparison always
happens); other pivots are inserted stably. -/
def binarysortLoop (sorted : List Listing) : List Listing → List Listing
  | [] => sorted
  | x :: rest =>
    if x.posted_date.isNone then sorted ++ x :: rest
    else binarysortLoop (insortAsc x sorted) rest

/-- count_run's scan: `acc` holds the run read so far in reversed
order, `last` its most recent element, `desc` its direction (an
ascending run extends while the next element is not less than the last,
a descending run while it is strictly less).  Meeting a `None` key
during the scan raises before the run is reversed, leaving the whole
array untouched (the `none` result); otherwise the scan returns the
reversed run and the remaining elements. -/
def countRun (desc : Bool) (last : Listing) (acc : List Listing) :
    List Listing → Option (List Listing × List Listing)
  | [] => some (acc, [])
  | x :: rest =>
    if x.posted_date.isNone then none
    else if (desc && keyLt x last) || (!desc && !keyLt x last) then
      countRun desc x (x :: acc) rest
    else some (acc, x :: rest)

/-- CPython list.sort on the already-reversed array (`reverse=True`
reverses before and after the forward sort), in the single-run regime:
detect the initial ascending or strictly-descending run (a comparison
against a `None` key raises with the array untouched), reverse it when
descending, then grow it by stable binary insertion until a `None`
pivot raises; the array keeps whatever state the aborted in-place sort
reached, and a completed sort is the stable ascending order.  This is
CPython's exact behaviour for arrays shorter than 64 elements (minrun
equals the length: one run, no merging; validated against CPython
3.11).  For longer arrays CPython also merges completed runs on an
interpreter-version-dependent schedule, so an aborted state can differ
there, though it is always a permutation of the input — the only fact
about aborted states the theorems below use. -/
def pySortForward : List Listing → List Listing
  | [] => []
  | [x] => [x]
  | x0 :: x1 :: rest =>
    if x0.posted_date.isNone || x1.posted_date.isNone then x0 :: x1 :: rest
    else
      let desc := keyLt x1 x0
      match countRun desc x1 [x1, x0] rest with
      | none => x0 :: x1 :: rest
      | some (runRev, remaining) =>
        binarysortLoop (if desc then runRev else runRev.reverse) remaining

/-- The call `unique_jobs.sort(key=..., reverse=True)` inside
`try/except: pass`: when every `posted_date` is a string the stable
descending sort completes (all stable sorts agree on their output, so
the completed sort is `mergeSort` by descending key); otherwise the key
comparison raises `TypeError` at the first `None`, the bare `except`
swallows it, and the list keeps the partially-permuted state the
aborted in-place sort left — `pySortForward` on the reversed array,
reversed back, since CPython reverses before the forward sort and again
on both the success and the failure path. -/
def sortJobs (l : List Listing) : List Listing :=
  if l.all (fun j => j.posted_date.isSome) then l.mergeSort jobLe
  else (pySortForward l.reverse).reverse

/-- The aggregation in `main` over the per-section results: concatenate in
run order, dedup by url, then sort with the fallback. -/
def aggregate (sections : List (List Listing)) : List Listing :=
  sortJobs (dedup_jobs sections.flatten)

/-- A list page that lets pagination continue: not blocked, status 200,
at least one row, and a next-page link. -/
def GoodNextPage (p : Page) : Prop :=
  p.blockedText = false ∧ p.status = 200 ∧ p.rows ≠ [] ∧ p.next = true

/-- A list page the crawl aborts on: block signature or non-200 status. -/
def BadListPage (p : Page) : Prop :=
  p.blockedText = true ∨ p.status ≠ 200

instance (p : Page) : Decidable (GoodNextPage p) :=
  inferInstanceAs (Decidable (_ ∧ _ ∧ _ ∧ _))

instance (p : Page) : Decidable (BadListPage p) :=
  inferInstanceAs (Decidable (_ ∨ _))

/-! ### Helper lemmas -/

theorem pyOr_empty_right (a : String) : pyOr a "" = a := by
  unfold pyOr
  split
  · simp_all
  · rfl

theorem charListLe_total (a b : List Char) :
    (charListLe a b || charListLe b a) = true := by
  induction a generalizing b with
  | nil => simp [charListLe]
  | cons x xs ih =>
    cases b with
    | nil => simp [charListLe]
    | cons y ys =>
      simp only [charListLe, Bool.or_eq_true, decide_eq_true_eq,
        Bool.and_eq_true]
      rcases Nat.lt_trichotomy x.toNat y.toNat with h | h | h
      · left; left; exact h
      · rcases (by simpa using ih ys :
            charListLe xs ys = true ∨ charListLe ys xs = true) with h2 | h2
        · left; right; exact ⟨h, h2⟩
        · right; right; exact ⟨h.symm, h2⟩
      · right; left; exact h

theorem charListLe_trans (a b c : List Char)
    (hab : charListLe a b = true) (hbc : charListLe b c = true) :
    charListLe a c = true := by
  induction a generalizing b c with
  | nil => cases c <;> simp [charListLe]
  | cons x xs ih =>
    cases b with
    | nil => simp [charListLe] at hab
    | cons y ys =>
      cases c with
      | nil => simp [charListLe] at hbc
      | cons z zs =>
        simp only [charListLe, Bool.or_eq_true, decide_eq_true_eq,
          Bool.and_eq_true] at hab hbc ⊢
        rcases hab with hab | ⟨hab1, hab2⟩
        · rcases hbc with hbc | ⟨hbc1, hbc2⟩
          · exact Or.inl (hab.trans hbc)
          · exact Or.inl (hbc1 ▸ hab)
        · rcases hbc with hbc | ⟨hbc1, hbc2⟩
          · exact Or.inl (hab1 ▸ hbc)
          · exact Or.inr ⟨hab1.trans hbc1, ih ys zs hab2 hbc2⟩

theorem jobLe_total (a b : Listing) : (jobLe a b || jobLe b a) = true :=
  charListLe_total (sortKey b).data (sortKey a).data

theorem jobLe_trans (a b c : Listing) (hab : jobLe a b = true)
    (hbc : jobLe b c = true) : jobLe a c = true :=
  charListLe_trans (sortKey c).data (sortKey b).data (sortKey a).data hbc hab

theorem pyStrLe_empty_right (s : String) (h : pyStrLe s "" = true) :
    s = "" := by
  obtain ⟨data⟩ := s
  cases data with
  | nil => rfl
  | cons x xs => simp [pyStrLe, charListLe] at h

theorem dedupAux_sublist (seen : List String) (l : List Listing) :
    (dedupAux seen l).Sublist l := by
  induction l generalizing seen with
  | nil => simp [dedupAux]
  | cons j rest ih =>
    simp only [dedupAux]
    split
    · exact (ih seen).trans (List.sublist_cons_self j rest)
    · exact (ih _).cons₂ j

theorem dedupAux_not_mem_seen (seen : List String) (l : List Listing) :
    ∀ k ∈ dedupAux seen l, k.job_url ∉ seen := by
  induction l generalizing seen with
  | nil => simp [dedupAux]
  | cons j rest ih =>
    intro k hk
    simp only [dedupAux] at hk
    split at hk
    · exact ih seen k hk
    · next hnot =>
      rcases List.mem_cons.mp hk with rfl | hk
      · exact hnot
      · intro hs
        exact ih _ k hk (by simp [hs])

theorem dedupAux_nodup (seen : List String) (l : List Listing) :
    ((dedupAux seen l).map (fun j => j.job_url)).Nodup := by
  induction l generalizing seen with
  | nil => simp [dedupAux]
  | cons j rest ih =>
    simp only [dedupAux]
    split
    · exact ih seen
    · simp only [List.map_cons, List.nodup_cons]
      refine ⟨fun hmem => ?_, ih _⟩
      rcases List.mem_map.mp hmem with ⟨k, hk, hurl⟩
      exact dedupAux_not_mem_seen _ _ k hk (by simp [hurl])

theorem dedupAux_complete (seen : List String) (l : List Listing) :
    ∀ j ∈ l, j.job_url ∉ seen →
      ∃ k ∈ dedupAux seen l, k.job_url = j.job_url := by
  induction l generalizing seen with
  | nil => simp
  | cons a rest ih =>
    intro j hj hns
    simp only [dedupAux]
    rcases List.mem_cons.mp hj with rfl | hj
    · split
      · next hmem => exact absurd hmem hns
      · exact ⟨j, List.mem_cons_self j _, rfl⟩
    · split
      · exact ih seen j hj hns
      · by_cases heq : j.job_url = a.job_url
        · exact ⟨a, List.mem_cons_self a _, heq.symm⟩
        · obtain ⟨k, hk, he⟩ := ih (a.job_url :: seen) j hj
            (by simp [hns, heq])
          exact ⟨k, List.mem_cons_of_mem a hk, he⟩

theorem dedupAux_find (seen : List String) (l : List Listing) :
    ∀ k ∈ dedupAux seen l,
      l.find? (fun x => x.job_url == k.job_url) = some k := by
  induction l generalizing seen with
  | nil => simp [dedupAux]
  | cons a rest ih =>
    intro k hk
    simp only [dedupAux] at hk
    split at hk
    · next hmem =>
      have hne : ¬ (a.job_url == k.job_url) = true := by
        simp only [beq_iff_eq]
        intro he
        exact dedupAux_not_mem_seen seen rest k hk (he ▸ hmem)
      rw [List.find?_cons_of_neg]
      · exact ih seen k hk
      · simpa using hne
    · next hmem =>
      rcases List.mem_cons.mp hk with rfl | hk
      · rw [List.find?_cons_of_pos]
        simp
      · have hnotin : k.job_url ∉ a.job_url :: seen :=
          dedupAux_not_mem_seen _ _ k hk
        have hne : ¬ (a.job_url == k.job_url) = true := by
          simp only [beq_iff_eq]
          intro he
          exact hnotin (by simp [he])
        rw [List.find?_cons_of_neg]
        · exact ih _ k hk
        · simpa using hne

theorem dropWhile_head_not (p : Char → Bool) :
    ∀ (l : List Char) (a : Char) (rest : List Char),
      l.dropWhile p = a :: rest → p a = false := by
  intro l
  induction l with
  | nil => simp [List.dropWhile]
  | cons x xs ih =>
    intro a rest h
    rw [List.dropWhile_cons] at h
    split at h
    · exact ih a rest h
    · next hx =>
      cases h
      simpa using hx

theorem pyRsplitSpace1_front (s : String) :
    (pyRsplitSpace1 s).data <+: s.data := by
  unfold pyRsplitSpace1
  split
  · exact List.prefix_refl _
  · next seg rest heq =>
    have hsuf : seg :: rest <:+ s.data.reverse :=
      heq ▸ List.dropWhile_suffix _
    have hrest : rest <:+ s.data.reverse :=
      (List.suffix_cons seg rest).trans hsuf
    have : rest.reverse.reverse <:+ s.data.reverse := by
      rwa [List.reverse_reverse]
    exact List.reverse_suffix.mp this

/-! ### Concrete sample data for the witness checks -/

/-- A dated Chicago listing. -/
def jA : Listing :=
  { title := "smm manager", job_url := "https://x/123.html",
    posted_date := some "2024-05-01T10:00:00", location := "chicago",
    short_description := "" }

/-- A later-dated listing with a distinct url. -/
def jB : Listing :=
  { title := "video editor", job_url := "https://x/456.html",
    posted_date := some "2024-06-01T09:00:00", location := "chicago",
    short_description := "" }

/-- A repost sharing `jA`'s url. -/
def jAdup : Listing :=
  { title := "smm manager repost", job_url := "https://x/123.html",
    posted_date := some "2024-07-01T08:00:00", location := "remote",
    short_description := "" }

/-- A listing whose posted date is missing (`None`). -/
def jNoDate : Listing :=
  { title := "gig", job_url := "https://x/789.html", posted_date := none,
    location := "chicago", short_description := "" }

/-- A January-dated listing for the sort-abort counterexample. -/
def j4a : Listing :=
  { title := "jan", job_url := "https://x/a.html",
    posted_date := some "2024-01-01T00:00:00", location := "chicago",
    short_description := "" }

/-- A February-dated listing for the sort-abort counterexample. -/
def j4b : Listing :=
  { title := "feb", job_url := "https://x/b.html",
    posted_date := some "2024-02-01T00:00:00", location := "chicago",
    short_description := "" }

/-- A March-dated listing for the sort-abort counterexample. -/
def j4c : Listing :=
  { title := "mar", job_url := "https://x/c.html",
    posted_date := some "2024-03-01T00:00:00", location := "chicago",
    short_description := "" }

/-- A detail page that passes every stage of an empty-filter config. -/
def wDetail : DetailResponse :=
  { status := 200, blockedText := false, url := "", titleFallback := "",
    postedDateRaw := none, description := "" }

/-- A results-page row whose detail fetch succeeds. -/
def wRow : RawRow :=
  { title := "social media job",
    url := "https://chicago.craigslist.org/d/1.html", locationRaw := "",
    detail := wDetail }

/-- A healthy list page with a next-page link. -/
def wPageNext : Page :=
  { status := 200, blockedText := false, rows := [wRow], next := true }

/-- A healthy terminal list page. -/
def wPageLast : Page :=
  { status := 200, blockedText := false, rows := [wRow], next := false }

/-- A list page whose body carries the block signature. -/
def wPageBlocked : Page :=
  { status := 200, blockedText := true, rows := [wRow], next := true }

/-- A config with no keyword or location filtering and `max_jobs = 1`. -/
def wCfg : FilterConfig :=
  { keywords := [], days := 7, locations := [], max_jobs := 1 }

/-- A config with one keyword and one allowed location. -/
def wCfg4 : FilterConfig :=
  { keywords := ["video"], days := 7, locations := ["chicago"],
    max_jobs := 50 }

/-- Row metadata for the keyword/location witness. -/
def wMeta4 : JobMeta :=
  { title := "Video editor", url := "https://x/1.html",
    location := "Chicago" }

/-- Detail page for the keyword/location witness. -/
def wResp4 : DetailResponse :=
  { status := 200, blockedText := false, url := "", titleFallback := "",
    postedDateRaw := some "2024-05-01T10:00:00",
    description := "edit short videos for a local shop" }

/-- The listing the classifier emits for `wMeta4`/`wResp4`. -/
def wL4 : Listing :=
  { title := "Video editor", job_url := "https://x/1.html",
    posted_date := some "2024-05-01T10:00:00", location := "Chicago",
    short_description := "edit short videos for a local shop" }

/-- Row metadata with a non-sentinel location, for the override witness. -/
def wMeta8 : JobMeta :=
  { title := "SMM helper", url := "https://x/2.html",
    location := "chicago, near loop" }

/-- Detail page whose description implies remote work. -/
def wResp8 : DetailResponse :=
  { status := 200, blockedText := false, url := "", titleFallback := "",
    postedDateRaw := none, description := "hybrid remote role, flexible" }

/-- The listing the classifier emits for `wMeta8`/`wResp8`. -/
def wL8 : Listing :=
  { title := "SMM helper", job_url := "https://x/2.html",
    posted_date := none, location := "remote",
    short_description := "hybrid remote role, flexible" }

/-- A 201-character description consisting of a single word. -/
def longWord : String := ⟨List.replicate 201 'a'⟩

/-- A 211-character description with its only space at position 150. -/
def wDesc211 : String :=
  ⟨List.replicate 150 'a' ++ ' ' :: List.replicate 60 'b'⟩

/-! ### Claims -/

/-- C3: in every aggregate, dedup by url keeps the first occurrence in
concatenated run order and drops all later duplicates: the deduplicated
urls are pairwise distinct, the output is a subsequence of the
concatenation, every input url survives, and each kept listing is
exactly the first listing of the concatenation carrying its url. -/
theorem c3_dedup_unique_first_wins (sections : List (List Listing)) :
    ((dedup_jobs sections.flatten).map (fun j => j.job_url)).Nodup ∧
    (dedup_jobs sections.flatten).Sublist sections.flatten ∧
    (∀ j ∈ sections.flatten,
      ∃ k ∈ dedup_jobs sections.flatten, k.job_url = j.job_url) ∧
    (∀ k ∈ dedup_jobs sections.flatten,
      sections.flatten.find? (fun x => x.job_url == k.job_url) = some k) :=
  ⟨dedupAux_nodup [] _, dedupAux_sublist [] _,
   fun j hj => dedupAux_complete [] _ j hj (by simp),
   fun k hk => dedupAux_find [] _ k hk⟩

/-- Witness for C3 on a concrete two-section run with a cross-section
duplicate url: the duplicate's url survives, and the kept record is the
first occurrence. -/
theorem c3_dedup_unique_first_wins_witness :
    (∃ k ∈ dedup_jobs [[jA, jB], [jAdup]].flatten,
      k.job_url = jAdup.job_url) ∧
    [[jA, jB], [jAdup]].flatten.find?
      (fun x => x.job_url == jA.job_url) = some jA :=
  ⟨(c3_dedup_unique_first_wins [[jA, jB], [jAdup]]).2.2.1 jAdup (by decide),
   (c3_dedup_unique_first_wins [[jA, jB], [jAdup]]).2.2.2 jA (by decide)⟩

theorem insortAsc_perm (x : Listing) (l : List Listing) :
    (insortAsc x l).Perm (x :: l) := by
  induction l with
  | nil => simp [insortAsc]
  | cons p rest ih =>
    simp only [insortAsc]
    split
    · exact List.Perm.refl _
    · exact (List.Perm.cons p ih).trans (List.Perm.swap x p rest)

theorem binarysortLoop_perm (rem : List Listing) :
    ∀ sorted, (binarysortLoop sorted rem).Perm (sorted ++ rem) := by
  induction rem with
  | nil =>
    intro sorted
    simp [binarysortLoop]
  | cons x rest ih =>
    intro sorted
    simp only [binarysortLoop]
    split
    · exact List.Perm.refl _
    · refine (ih _).trans ?_
      refine (((insortAsc_perm x sorted).append_right rest).trans ?_)
      exact List.perm_middle.symm

theorem countRun_decomp (rem : List Listing) :
    ∀ desc last acc res1 res2,
      countRun desc last acc rem = some (res1, res2) →
      res1.reverse ++ res2 = acc.reverse ++ rem := by
  induction rem with
  | nil =>
    intro desc last acc r1 r2 h
    simp only [countRun, Option.some.injEq, Prod.mk.injEq] at h
    obtain ⟨rfl, rfl⟩ := h
    simp
  | cons x rest ih =>
    intro desc last acc r1 r2 h
    simp only [countRun] at h
    split at h
    · exact absurd h (by simp)
    · split at h
      · have hr := ih desc x (x :: acc) r1 r2 h
        rw [hr]
        simp
      · simp only [Option.some.injEq, Prod.mk.injEq] at h
        obtain ⟨rfl, rfl⟩ := h
        rfl

theorem pySortForward_perm (l : List Listing) :
    (pySortForward l).Perm l := by
  match l with
  | [] => simp [pySortForward]
  | [x] => simp [pySortForward]
  | x0 :: x1 :: rest =>
    simp only [pySortForward]
    split
    · exact List.Perm.refl _
    · rcases heq : countRun (keyLt x1 x0) x1 [x1, x0] rest with _ | ⟨r1, r2⟩
      · simp only [heq]
        exact List.Perm.refl _
      · simp only [heq]
        have hbase : r1.reverse ++ r2 = x0 :: x1 :: rest :=
          countRun_decomp rest _ _ _ _ _ heq
        refine (binarysortLoop_perm r2 _).trans ?_
        split
        · have hp : (r1 ++ r2).Perm (r1.reverse ++ r2) :=
            (List.reverse_perm r1).symm.append_right r2
          rw [hbase] at hp
          exact hp
        · rw [hbase]

theorem sortJobs_perm (l : List Listing) : (sortJobs l).Perm l := by
  unfold sortJobs
  split
  · exact List.mergeSort_perm _ _
  · exact (List.reverse_perm _).trans
      ((pySortForward_perm l.reverse).trans (List.reverse_perm l))

/-- Counterexample to C7 as stated: the aggregator does NOT return the
deduplicated sequence in its original insertion order when the sort
fails.  On a null-dated listing followed by March-, January- and
February-dated ones, CPython's aborted in-place sort (reverse, build
the initial run, insert March, then raise on the null key; reverse
back) leaves the last two entries swapped relative to insertion order —
behaviour reproduced here and checked against CPython 3.11. -/
theorem c7_counterexample :
    jNoDate.posted_date = none ∧
    aggregate [[jNoDate, j4c, j4a, j4b]] = [jNoDate, j4c, j4b, j4a] ∧
    aggregate [[jNoDate, j4c, j4a, j4b]] ≠
      dedup_jobs [[jNoDate, j4c, j4a, j4b]].flatten := by
  refine ⟨rfl, by decide, by decide⟩

/-- C7 amended: when the sort key is unusable (a deduplicated entry has
a `None` posted date, so the key comparison raises `TypeError`), the
bare `except` swallows the error — it never reaches the caller — and
the aggregator still returns exactly the deduplicated entries, but as
the partial permutation the aborted in-place sort left, which need not
be the original insertion order. -/
theorem c7_amended_abort_is_permutation (sections : List (List Listing))
    (_h : ∃ j ∈ dedup_jobs sections.flatten, j.posted_date = none) :
    (aggregate sections).Perm (dedup_jobs sections.flatten) :=
  sortJobs_perm _

/-- Witness for C7's amended statement on the four-listing abort run. -/
theorem c7_amended_abort_witness :
    (aggregate [[jNoDate, j4c, j4a, j4b]]).Perm
      (dedup_jobs [[jNoDate, j4c, j4a, j4b]].flatten) :=
  c7_amended_abort_is_permutation [[jNoDate, j4c, j4a, j4b]]
    ⟨jNoDate, by decide, rfl⟩

/-- C10: the recency check parses only the first 19 characters of the
raw date with the zone-less format: every successfully parsed value is
timezone-naive, the zone-aware branch of the comparison is unreachable
(the result does not depend on the zone-aware clock at all), and two raw
strings agreeing on their first 19 characters are treated identically. -/
theorem c10_naive_first19_parse :
    (∀ s dt, strptime19 s = some dt → dt.tz = none) ∧
    (∀ (days now : Int) (f g : Int → Int) (raw : Option String),
      is_job_recent days now f raw = is_job_recent days now g raw) ∧
    (∀ (days now : Int) (f : Int → Int) (s s2 : String),
      pySlice 19 s = pySlice 19 s2 →
      is_job_recent days now f (some s) =
        is_job_recent days now f (some s2)) := by
  have h1 : ∀ s dt, strptime19 s = some dt → dt.tz = none := by
    intro s dt h
    obtain ⟨t, ht, rfl⟩ := Option.map_eq_some'.mp h
    rfl
  have hempty : ∀ s : String, pySlice 19 s = "" → s = "" := by
    intro s h
    have hd : s.data.take 19 = [] := congrArg String.data h
    obtain ⟨d⟩ := s
    rcases List.take_eq_nil_iff.mp hd with h19 | hnil
    · simp at h19
    · simp_all
  refine ⟨h1, ?_, ?_⟩
  · intro days now f g raw
    cases raw with
    | none => rfl
    | some s =>
      by_cases hs : s = ""
      · simp [is_job_recent, hs]
      · cases h : strptime19 (pySlice 19 s) with
        | none => simp [is_job_recent, hs, h]
        | some dt =>
          obtain ⟨t, ht, rfl⟩ := Option.map_eq_some'.mp h
          simp [is_job_recent, hs, h]
  · intro days now f s s2 h19
    by_cases hs : s = ""
    · have hs2 : s2 = "" := by
        apply hempty
        rw [← h19, hs]
        rfl
      rw [hs, hs2]
    · have hs2 : s2 ≠ "" := by
        intro he
        exact hs (hempty s (by rw [h19, he]; rfl))
      simp only [is_job_recent, hs, hs2, if_neg, ite_false]
      rw [h19]

/-- Witness for C10: two raw dates differing only in their trailing
timezone suffix get the same verdict. -/
theorem c10_naive_first19_witness :
    is_job_recent 7 1700000000 (fun z => z)
        (some "2020-01-01T00:00:00-0600") =
      is_job_recent 7 1700000000 (fun z => z)
        (some "2020-01-01T00:00:00+0000") :=
  c10_naive_first19_parse.2.2 7 1700000000 (fun z => z)
    "2020-01-01T00:00:00-0600" "2020-01-01T00:00:00+0000" (by decide)

/-- Counterexample to C6 as stated: the spider emits `posted_date: null`
for a date-less job, the aggregator's sort key comparison then raises
(`None` versus `str`) at the aborted sort's very first comparison,
leaving this two-element array untouched — so the date-less entry sits
ABOVE the dated one, not below it. -/
theorem c6_counterexample :
    aggregate [[jNoDate], [jB]] = [jNoDate, jB] ∧
    jNoDate.posted_date = none ∧ jB.posted_date.isSome = true ∧
    ¬ (aggregate [[jNoDate], [jB]]).Pairwise
        (fun a b => a.posted_date = none → b.posted_date = none) := by
  refine ⟨by decide, rfl, rfl, by decide⟩

/-- C6 amended: when every deduplicated entry carries a string
`posted_date` (in particular whenever no entry's date is missing), the
aggregator sorts descending by that key, a permutation of the
deduplicated sequence, and entries with an empty-string key end up below
all non-empty ones; but an entry whose `posted_date` is `None` (the
spider's encoding of a missing date) makes the sort raise, the list
keeps whatever partially-permuted state the aborted in-place sort
reached, and missing-date entries are not sunk to the bottom. -/
theorem c6_amended_sort_descending (sections : List (List Listing))
    (h : ∀ j ∈ dedup_jobs sections.flatten, j.posted_date.isSome = true) :
    (aggregate sections).Perm (dedup_jobs sections.flatten) ∧
    (aggregate sections).Pairwise (fun a b => jobLe a b = true) ∧
    (aggregate sections).Pairwise
      (fun a b => sortKey a = "" → sortKey b = "") := by
  have hall : (dedup_jobs sections.flatten).all
      (fun j => j.posted_date.isSome) = true := List.all_eq_true.mpr h
  have hagg : aggregate sections =
      (dedup_jobs sections.flatten).mergeSort jobLe := by
    simp [aggregate, sortJobs, hall]
  have hsorted := List.sorted_mergeSort jobLe_trans jobLe_total
    (dedup_jobs sections.flatten)
  refine ⟨?_, ?_, ?_⟩
  · rw [hagg]
    exact List.mergeSort_perm _ _
  · rw [hagg]
    exact hsorted
  · rw [hagg]
    refine hsorted.imp (fun hab hka => ?_)
    have hle : pyStrLe (sortKey _) (sortKey _) = true := hab
    rw [hka] at hle
    exact pyStrLe_empty_right _ hle

/-- Witness for C6's amended sort: two dated single-listing sections
come out sorted descending, as a permutation of their dedup. -/
theorem c6_amended_sort_witness :
    (aggregate [[jA], [jB]]).Perm (dedup_jobs [[jA], [jB]].flatten) ∧
    (aggregate [[jA], [jB]]).Pairwise (fun a b => jobLe a b = true) :=
  ⟨(c6_amended_sort_descending [[jA], [jB]] (by decide)).1,
   (c6_amended_sort_descending [[jA], [jB]] (by decide)).2.1⟩

/-- Counterexample to C2 as stated: a 201-character single-word
description is truncated to its first 200 characters with no whitespace
back-off, so the short description does end mid-word (no space follows
the kept prefix in the original). -/
theorem c2_counterexample :
    pyLen longWord > 200 ∧
    short_description longWord = ⟨List.replicate 200 'a'⟩ ∧
    ¬ ∃ tail, longWord.data =
        (short_description longWord).data ++ ' ' :: tail := by
  refine ⟨by decide, by decide, ?_⟩
  rintro ⟨tail, htail⟩
  have h200 : longWord.data[200]? = some 'a' := by decide
  rw [htail] at h200
  have hlen : (short_description longWord).data.length = 200 := by decide
  rw [List.getElem?_append_right (by omega)] at h200
  rw [hlen] at h200
  simp at h200

/-- C2 amended: the short description equals the description when the
latter is at most 200 characters; otherwise it is a prefix of the
description of length at most 200, and — provided the first 200
characters contain at least one space — the cut falls on a word
boundary (the next character of the description is a space). When the
first 200 characters contain no space the hard 200-character cut is
kept, possibly mid-word. -/
theorem c2_amended_short_description (d : String) :
    (pyLen d ≤ 200 → short_description d = d) ∧
    (pyLen d > 200 →
      pyLen (short_description d) ≤ 200 ∧
      (short_description d).data <+: d.data ∧
      (' ' ∈ (pySlice 200 d).data →
        ∃ tail, d.data = (short_description d).data ++ ' ' :: tail)) := by
  constructor
  · intro h
    unfold short_description
    rw [if_neg (by omega)]
  · intro h
    have hshort : short_description d = pyRsplitSpace1 (pySlice 200 d) := by
      unfold short_description
      rw [if_pos h]
    have htake : (pySlice 200 d).data = d.data.take 200 := rfl
    have hpre : (short_description d).data <+: (pySlice 200 d).data := by
      rw [hshort]
      exact pyRsplitSpace1_front _
    refine ⟨?_, ?_, ?_⟩
    · have hle := hpre.length_le
      rw [htake] at hle
      have h2 : (d.data.take 200).length ≤ 200 := by
        simp [List.length_take]
      unfold pyLen
      omega
    · refine hpre.trans ?_
      rw [htake]
      exact List.take_prefix _ _
    · intro hsp
      rw [hshort]
      unfold pyRsplitSpace1
      split
      · next heq =>
        exfalso
        have hall := List.dropWhile_eq_nil_iff.mp heq
        have hmem : ' ' ∈ (pySlice 200 d).data.reverse :=
          List.mem_reverse.mpr hsp
        have := hall _ hmem
        simp at this
      · next seg rest heq =>
        have hseg : seg = ' ' := by
          have := dropWhile_head_not _ _ _ _ heq
          simpa using this
        subst hseg
        have hsuf : ' ' :: rest <:+ (pySlice 200 d).data.reverse :=
          heq ▸ List.dropWhile_suffix _
        obtain ⟨w, hw⟩ := hsuf
        have hs0 : (pySlice 200 d).data =
            rest.reverse ++ ' ' :: w.reverse := by
          conv_lhs => rw [← List.reverse_reverse ((pySlice 200 d).data)]
          rw [← hw, List.reverse_append, List.reverse_cons,
            List.append_assoc, List.singleton_append]
        refine ⟨w.reverse ++ d.data.drop 200, ?_⟩
        calc d.data = d.data.take 200 ++ d.data.drop 200 :=
              (List.take_append_drop _ _).symm
          _ = (rest.reverse ++ ' ' :: w.reverse) ++ d.data.drop 200 := by
              rw [← htake, hs0]
          _ = rest.reverse ++ ' ' :: (w.reverse ++ d.data.drop 200) := by
              rw [List.append_assoc, List.cons_append]

/-- Witness for C2's amended statement: a 211-character description with
a space at position 150 is cut back to that word boundary, staying a
prefix of the original of length at most 200. -/
theorem c2_amended_witness :
    pyLen wDesc211 > 200 ∧
    pyLen (short_description wDesc211) ≤ 200 ∧
    (short_description wDesc211).data <+: wDesc211.data ∧
    (∃ tail, wDesc211.data =
      (short_description wDesc211).data ++ ' ' :: tail) := by
  have h := (c2_amended_short_description wDesc211).2 (by decide)
  exact ⟨by decide, h.1, h.2.1, h.2.2 (by decide)⟩

/-- Counterexample to C1 as stated: with `max_jobs = 1` and a two-page
pagination chain, each page is sliced to `max_jobs` separately and the
section emits 2 listings — the ceiling does not bound the section's
total output across next-page links. -/
theorem c1_counterexample :
    0 < wCfg.max_jobs ∧
    wCfg.max_jobs.toNat <
      (crawl wCfg 0 (fun z => z) [wPageNext, wPageLast]).length := by
  refine ⟨by decide, by decide⟩

/-- C1 amended: when `max_jobs > 0` the slice bounds each single result
page's contribution to at most `max_jobs` listings, so a crawl that
visits `k` list pages emits at most `k * max_jobs` listings; the ceiling
is applied per page, not to the section total, which can therefore
exceed `max_jobs` when pagination is followed. -/
theorem c1_amended_per_page_bound (cfg : FilterConfig) (now : Int)
    (tzNow : Int → Int) (pages : List Page) (h : 0 < cfg.max_jobs) :
    (∀ p : Page, (pageItems cfg now tzNow p).length ≤ cfg.max_jobs.toNat) ∧
    (crawl cfg now tzNow pages).length ≤
      pages.length * cfg.max_jobs.toNat := by
  have hpage : ∀ p : Page,
      (pageItems cfg now tzNow p).length ≤ cfg.max_jobs.toNat := by
    intro p
    unfold pageItems
    rw [if_pos h]
    calc (List.filterMap (processRow cfg now tzNow)
            (p.rows.take cfg.max_jobs.toNat)).length
        ≤ (p.rows.take cfg.max_jobs.toNat).length :=
          List.length_filterMap_le _ _
      _ ≤ cfg.max_jobs.toNat := by
          simp [List.length_take]
  refine ⟨hpage, ?_⟩
  induction pages with
  | nil => simp [crawl]
  | cons p rest ih =>
    unfold crawl
    split
    · simp
    · split
      · simp
      · rw [List.length_append, List.length_cons]
        have h1 := hpage p
        have h2 : (if p.next then crawl cfg now tzNow rest
            else []).length ≤ rest.length * cfg.max_jobs.toNat := by
          split
          · exact ih
          · simp
        calc (pageItems cfg now tzNow p).length +
              (if p.next then crawl cfg now tzNow rest else []).length
            ≤ cfg.max_jobs.toNat + rest.length * cfg.max_jobs.toNat :=
              Nat.add_le_add h1 h2
          _ = (rest.length + 1) * cfg.max_jobs.toNat := by ring

/-- Witness for C1's amended bound on the concrete two-page chain. -/
theorem c1_amended_witness :
    (crawl wCfg 0 (fun z => z) [wPageNext, wPageLast]).length ≤
      ([wPageNext, wPageLast] : List Page).length * wCfg.max_jobs.toNat :=
  (c1_amended_per_page_bound wCfg 0 (fun z => z) [wPageNext, wPageLast]
    (by decide)).2

/-- C9: a blocked or non-success list page makes `parse` return before
yielding anything for that page, so no pagination past it is followed,
while every listing accumulated from the earlier (healthy, chained)
pages of the section is still returned. -/
theorem c9_bad_list_page_aborts (cfg : FilterConfig) (now : Int)
    (tzNow : Int → Int) (ps : List Page) (p : Page) (rest : List Page)
    (hgood : ∀ q ∈ ps, GoodNextPage q) (hbad : BadListPage p) :
    crawl cfg now tzNow (ps ++ p :: rest) =
      (ps.map (pageItems cfg now tzNow)).flatten := by
  induction ps with
  | nil =>
    simp only [List.nil_append, List.map_nil, List.flatten_nil]
    unfold crawl
    have hb : p.blockedText = true ∨ p.status ≠ 200 := hbad
    rw [if_pos hb]
  | cons q qs ih =>
    obtain ⟨h1, h2, h3, h4⟩ := hgood q (List.mem_cons_self q qs)
    simp only [List.cons_append, List.map_cons, List.flatten_cons]
    unfold crawl
    rw [if_neg (by simp [h1, h2]), if_neg h3, h4, if_pos rfl]
    rw [ih (fun r hr => hgood r (List.mem_cons_of_mem q hr))]

/-- Witness for C9: one healthy page followed by a blocked page — the
crawl returns exactly the first page's listings and ignores the rest of
the chain. -/
theorem c9_bad_list_page_witness :
    crawl wCfg 0 (fun z => z) [wPageNext, wPageBlocked, wPageLast] =
      ([wPageNext].map (pageItems wCfg 0 (fun z => z))).flatten :=
  c9_bad_list_page_aborts wCfg 0 (fun z => z) [wPageNext] wPageBlocked
    [wPageLast] (by decide) (by decide)

theorem emit_location_filter (cfg : FilterConfig) (locv : String)
    (r : Listing) (L : Listing) (hloc : r.location = locv)
    (h : (if cfg.locations ≠ [] ∧
        ¬ ∃ tok ∈ cfg.locations, PyIn tok (pyLower (pyOr locv "")) then none
      else some r) = some L) :
    L = r ∧ (cfg.locations ≠ [] →
      ∃ tok ∈ cfg.locations, PyIn tok (pyLower L.location)) := by
  split at h
  · exact absurd h (by simp)
  · next hneg =>
    have hLr : L = r := (Option.some.inj h).symm
    refine ⟨hLr, fun hne => ?_⟩
    rcases not_and_or.mp hneg with hbad | hex
    · exact absurd hne (by simpa using hbad)
    · rw [hLr, hloc]
      simpa [pyOr_empty_right] using not_not.mp hex

/-- C4: every emitted listing satisfies the configured filters — with a
non-empty keyword set, some keyword occurs in the lower-cased
title-plus-description; with a non-empty allowed-location set, some
token occurs in the lower-cased (post-override) location; and with both
sets empty, these stages reject nothing: any unblocked, 200-status,
recent detail page is emitted. -/
theorem c4_filter_invariants (cfg : FilterConfig) (now : Int)
    (tzNow : Int → Int) (meta : JobMeta) (resp : DetailResponse) :
    (∀ L, parse_job_detail cfg now tzNow meta resp = some L →
      (cfg.keywords ≠ [] → ∃ kw ∈ cfg.keywords,
        PyIn kw (pyLower (L.title ++ " " ++ resp.description))) ∧
      (cfg.locations ≠ [] → ∃ tok ∈ cfg.locations,
        PyIn tok (pyLower L.location))) ∧
    (cfg.keywords = [] → cfg.locations = [] →
      resp.blockedText = false → resp.status = 200 →
      is_job_recent cfg.days now tzNow resp.postedDateRaw = true →
      (parse_job_detail cfg now tzNow meta resp).isSome = true) := by
  constructor
  · intro L h
    simp only [parse_job_detail] at h
    split at h
    · exact absurd h (by simp)
    split at h
    · exact absurd h (by simp)
    next hkw =>
    split at h
    · exact absurd h (by simp)
    have hkey : cfg.keywords ≠ [] → ∃ kw ∈ cfg.keywords,
        PyIn kw (pyLower ((pyOr meta.title resp.titleFallback) ++ " " ++
          resp.description)) := by
      intro hk
      rcases not_and_or.mp hkw with hbad | hex
      · exact absurd hk (by simpa using hbad)
      · simpa using not_not.mp hex
    split at h
    · obtain ⟨hLr, hlocgoal⟩ := emit_location_filter cfg "remote" _ L rfl h
      refine ⟨fun hk => ?_, hlocgoal⟩
      rw [hLr]
      simpa using hkey hk
    · obtain ⟨hLr, hlocgoal⟩ :=
        emit_location_filter cfg meta.location _ L rfl h
      refine ⟨fun hk => ?_, hlocgoal⟩
      rw [hLr]
      simpa using hkey hk
  · intro hk hl hb hs hr
    simp [parse_job_detail, hb, hs, hk, hl, hr]

/-- Witness for C4: a concrete emission under a keyword + location
config contains the keyword and passes the location check, and under an
empty-filter config a clean recent detail page is always emitted. -/
theorem c4_filter_invariants_witness :
    (∃ kw ∈ wCfg4.keywords,
      PyIn kw (pyLower (wL4.title ++ " " ++ wResp4.description))) ∧
    (∃ tok ∈ wCfg4.locations, PyIn tok (pyLower wL4.location)) ∧
    (parse_job_detail wCfg 0 (fun z => z) wMeta8 wResp8).isSome = true := by
  have h4 := (c4_filter_invariants wCfg4 1714550000 (fun z => z) wMeta4
    wResp4).1 wL4 (by decide)
  exact ⟨h4.1 (by decide), h4.2 (by decide),
    (c4_filter_invariants wCfg 0 (fun z => z) wMeta8 wResp8).2
      rfl rfl rfl rfl rfl⟩

/-- C8: for an emitted listing whose row-level location is neither
sentinel, a description containing "remote" forces the emitted location
to "remote"; rows already carrying "remote" or "N/A" keep their
location unchanged. -/
theorem c8_remote_override (cfg : FilterConfig) (now : Int)
    (tzNow : Int → Int) (meta : JobMeta) (resp : DetailResponse)
    (L : Listing) (h : parse_job_detail cfg now tzNow meta resp = some L) :
    ((meta.location ≠ "remote" ∧ meta.location ≠ "N/A" ∧
        PyIn "remote" (pyLower resp.description)) →
      L.location = "remote") ∧
    ((meta.location = "remote" ∨ meta.location = "N/A") →
      L.location = meta.location) := by
  simp only [parse_job_detail] at h
  split at h
  · exact absurd h (by simp)
  split at h
  · exact absurd h (by simp)
  split at h
  · exact absurd h (by simp)
  split at h
  · next hov =>
    obtain ⟨hLr, _⟩ := emit_location_filter cfg "remote" _ L rfl h
    constructor
    · intro _
      rw [hLr]
    · intro hc
      rcases hc with hc | hc
      · exact absurd hc hov.1
      · exact absurd hc hov.2.1
  · next hov =>
    obtain ⟨hLr, _⟩ :=
      emit_location_filter cfg meta.location _ L rfl h
    constructor
    · intro hc
      exact absurd hc hov
    · intro _
      rw [hLr]

/-- Witness for C8: a Chicago-located row whose body mentions remote
work is emitted with location "remote". -/
theorem c8_remote_override_witness : wL8.location = "remote" :=
  (c8_remote_override wCfg 0 (fun z => z) wMeta8 wResp8 wL8
    (by decide)).1 ⟨by decide, by decide, by decide⟩

end CraigslistJobs
